import Mathlib

/-!
Shallow embedding of the T3S reactive-signal library (src/t3s.js and the
second copy of `createSignal` in src/unnamed/part_000), together with proofs
of the specification claims.

Modelling conventions:
* JavaScript values are `JSValue` (numbers as `Int`, strings, booleans,
  `null`, `undefined`); truthiness and template-literal stringification
  follow the usual JS coercions.
* Subscriber callbacks are identified by `Nat` ids.  The JS `Set` of
  subscribers is an insertion-ordered duplicate-free `List Nat`
  (`Set.add` appends when absent, `Set.delete` erases the entry).
* The DOM elements matched by `document.querySelectorAll` at construction
  time are passed in explicitly as lists of `Reader` / `Checker` records;
  `innerText` is a string, `classList` an ordered duplicate-free token list.
* Plain observer callbacks are pure; for the claims about callbacks that
  unsubscribe mid-pass, throw, or recompute a computed signal, dedicated
  models below give the callbacks exactly that one effect.
-/

namespace T3S

/-- A JavaScript value, as far as this library manipulates one. -/
inductive JSValue where
  | num (n : Int)
  | str (s : String)
  | bool (b : Bool)
  | null
  | undefined
deriving DecidableEq

/-- JS truthiness (`!!value`): `0`, `""`, `false`, `null`, `undefined`
are falsy, everything else truthy. -/
def truthy : JSValue → Bool
  | .num n => n ≠ 0
  | .str s => s ≠ ""
  | .bool b => b
  | .null => false
  | .undefined => false

/-- JS template-literal coercion to a string, as in `` `${value}` ``. -/
def displayString : JSValue → String
  | .num n => toString n
  | .str s => s
  | .bool b => if b then "true" else "false"
  | .null => "null"
  | .undefined => "undefined"

/-- A display target matched by `[data-signal-read=name]`: we track its
`innerText`. -/
structure Reader where
  innerText : String
deriving DecidableEq

/-- A visibility target matched by `[data-signal-checker=name]`: we track
its `classList` as the DOM ordered token set. -/
structure Checker where
  classList : List String
deriving DecidableEq

/-- `DOMTokenList.add tok`: appends the token when absent, no-op when
present. -/
def classListAdd (cl : List String) (tok : String) : List String :=
  if tok ∈ cl then cl else cl ++ [tok]

/-- `DOMTokenList.remove tok`: removes the token. -/
def classListRemove (cl : List String) (tok : String) : List String :=
  cl.filter (fun t => t ≠ tok)

/-- `DOMTokenList.toggle tok force` per the DOM standard: when the token is
present, `force = true` keeps it and `force = false` removes it; when
absent, `force = true` appends it and `force = false` does nothing. -/
def classListToggleForce (cl : List String) (tok : String) (force : Bool) :
    List String :=
  if tok ∈ cl then
    if force then cl else classListRemove cl tok
  else
    if force then cl ++ [tok] else cl

/-- The mutable state captured by one `createSignal` closure
(src/t3s.js lines 1-5): the current `value`, the subscriber `Set`
(insertion-ordered callback ids), and the fixed `readers` / `checkers`
node lists captured at construction. -/
structure SignalState where
  value : JSValue
  subscribers : List Nat
  readers : List Reader
  checkers : List Checker
deriving DecidableEq

/-- Everything one `notify()` pass does besides mutating the DOM records:
which subscriber ids were called with which value, the string assigned to
each reader's `innerText`, and the boolean passed to each checker's
`classList.toggle('visible', ·)`, all in pass order. -/
structure NotifyTrace where
  calls : List (Nat × JSValue)
  textWrites : List String
  visToggles : List Bool
deriving DecidableEq

/-- `notify` (src/t3s.js lines 7-13) with pure observer callbacks:
invokes every subscriber with the value, assigns the stringified value to
every reader, and toggles the `visible` class on every checker to the
value's truthiness. -/
def notifySig (s : SignalState) : SignalState × NotifyTrace :=
  ({ s with
      readers := s.readers.map (fun _ => ⟨displayString s.value⟩),
      checkers := s.checkers.map
        (fun c => ⟨classListToggleForce c.classList "visible" (truthy s.value)⟩) },
   { calls := s.subscribers.map (fun i => (i, s.value)),
     textWrites := s.readers.map (fun _ => displayString s.value),
     visToggles := s.checkers.map (fun _ => truthy s.value) })

/-- `createSignal(name, initialValue)` (src/t3s.js lines 1-15): fresh empty
subscriber set, the readers/checkers discovered for `name`, and one
initial `notify()` pass.  The `document.querySelectorAll` discovery is
abstracted as the matched lists `rs` / `cs`. -/
def createSignalRun (init : JSValue) (rs : List Reader) (cs : List Checker) :
    SignalState × NotifyTrace :=
  notifySig { value := init, subscribers := [], readers := rs, checkers := cs }

/-- `set(newValue)` (src/t3s.js lines 21-24): store the value
unconditionally, then notify. -/
def setSig (s : SignalState) (v : JSValue) : SignalState × NotifyTrace :=
  notifySig { s with value := v }

/-- `update(fn)` (src/t3s.js lines 25-28): store `fn(value)`, then
notify. -/
def updateSig (s : SignalState) (f : JSValue → JSValue) :
    SignalState × NotifyTrace :=
  notifySig { s with value := f s.value }

/-- `subscribe(fn)` (src/t3s.js lines 29-32): `Set.add` — append the
callback when not already registered. -/
def subscribeSig (s : SignalState) (id : Nat) : SignalState :=
  { s with subscribers :=
      if id ∈ s.subscribers then s.subscribers else s.subscribers ++ [id] }

/-- The unsubscribe handle returned by `subscribe` (src/t3s.js line 31):
`Set.delete` — erase the callback's entry (no-op when absent). -/
def unsubscribeSig (s : SignalState) (id : Nat) : SignalState :=
  { s with subscribers := s.subscribers.erase id }

/-- One call on the signal's public API. `update` carries the (pure)
function passed by the caller. -/
inductive SigOp where
  | set (v : JSValue)
  | update (f : JSValue → JSValue)
  | subscribe (id : Nat)
  | unsubscribe (id : Nat)

/-- State effect of one API call. -/
def applySigOp (s : SignalState) : SigOp → SignalState
  | .set v => (setSig s v).1
  | .update f => (updateSig s f).1
  | .subscribe id => subscribeSig s id
  | .unsubscribe id => unsubscribeSig s id

/-- State after a sequence of API calls. -/
def applySigOps (s : SignalState) (ops : List SigOp) : SignalState :=
  ops.foldl applySigOp s

/-!
The second copy of `createSignal`, in src/unnamed/part_000 lines 175-209.
It is textually identical to the one in src/t3s.js except for the checker
branch of `notify`: instead of `classList.toggle('visible', !!value)` it
runs `if (!!value) checker.classList.add('visible'); else
checker.classList.remove('visible')` (part_000 lines 184-187).
-/

/-- `notify` of the part_000 `createSignal` (lines 181-188): same
subscriber and reader steps, checkers updated with the add/remove
branch. -/
def notifySigB (s : SignalState) : SignalState × NotifyTrace :=
  ({ s with
      readers := s.readers.map (fun _ => ⟨displayString s.value⟩),
      checkers := s.checkers.map
        (fun c => ⟨if truthy s.value then classListAdd c.classList "visible"
                   else classListRemove c.classList "visible"⟩) },
   { calls := s.subscribers.map (fun i => (i, s.value)),
     textWrites := s.readers.map (fun _ => displayString s.value),
     visToggles := s.checkers.map (fun _ => truthy s.value) })

/-- State effect of one API call in the part_000 implementation. -/
def applySigOpB (s : SignalState) : SigOp → SignalState
  | .set v => (notifySigB { s with value := v }).1
  | .update f => (notifySigB { s with value := f s.value }).1
  | .subscribe id => subscribeSig s id
  | .unsubscribe id => unsubscribeSig s id

/-- Full observable run of the src/t3s.js implementation: create the
signal (initial notify pass), then apply the call sequence, collecting the
final state and every pass's trace (creation pass first). -/
def runImplA (init : JSValue) (rs : List Reader) (cs : List Checker)
    (ops : List SigOp) : SignalState × List NotifyTrace :=
  let c := createSignalRun init rs cs
  ops.foldl
    (fun acc op =>
      match op with
      | .set v => let r := setSig acc.1 v; (r.1, acc.2 ++ [r.2])
      | .update f => let r := updateSig acc.1 f; (r.1, acc.2 ++ [r.2])
      | .subscribe id => (subscribeSig acc.1 id, acc.2)
      | .unsubscribe id => (unsubscribeSig acc.1 id, acc.2))
    (c.1, [c.2])

/-- Full observable run of the part_000 implementation. -/
def runImplB (init : JSValue) (rs : List Reader) (cs : List Checker)
    (ops : List SigOp) : SignalState × List NotifyTrace :=
  let c := notifySigB { value := init, subscribers := [], readers := rs, checkers := cs }
  ops.foldl
    (fun acc op =>
      match op with
      | .set v => let r := notifySigB { acc.1 with value := v }; (r.1, acc.2 ++ [r.2])
      | .update f => let r := notifySigB { acc.1 with value := f acc.1.value }; (r.1, acc.2 ++ [r.2])
      | .subscribe id => (subscribeSig acc.1 id, acc.2)
      | .unsubscribe id => (unsubscribeSig acc.1 id, acc.2))
    (c.1, [c.2])

/-!
Model for callbacks that unsubscribe other callbacks mid-pass (claim about
`subscribers.forEach` under concurrent `Set.delete`).  Per the ECMAScript
specification, `Set.prototype.forEach` visits the entries in insertion
order and skips an entry that was deleted before being visited.  Callback
`i`'s body is abstracted by `effects i`, the set of callback ids whose
unsubscribe handles it invokes when called.
-/

/-- `subscribers.forEach(fn => fn(value))` where each visited callback `i`
deletes the ids in `effects i` from the live set.  First argument list:
the insertion-order entries not yet reached; second: the current live
membership.  Returns the `(id, value)` invocations in order. -/
def forEachWithDeletes (effects : Nat → List Nat) (v : JSValue) :
    List Nat → List Nat → List (Nat × JSValue)
  | [], _ => []
  | i :: rest, active =>
      if i ∈ active then
        (i, v) :: forEachWithDeletes effects v rest
          (active.filter (fun j => decide (j ∉ effects i)))
      else
        forEachWithDeletes effects v rest active

/-- The subscriber step of the notify pass triggered by `set(v)` when the
currently registered callbacks may unsubscribe each other: the live set
starts as the registered entries themselves. -/
def setWithUnsubscribers (effects : Nat → List Nat) (s : SignalState)
    (v : JSValue) : List (Nat × JSValue) :=
  forEachWithDeletes effects v s.subscribers s.subscribers

/-!
Model for callbacks that may throw (claims about exception propagation).
A callback is `Nat × JSValue → Except String Unit`-shaped: `cbs i v` is
what callback `i` does when invoked with `v`.  JS exceptions are `String`
errors.  `notify` runs the subscriber loop first; an exception aborts the
pass, so the reader and checker writes (which come after the subscriber
loop in src/t3s.js lines 8-12) never happen.
-/

/-- Run the subscriber loop left to right, stopping at the first callback
that throws.  Returns the ids invoked (the thrower included) and the
propagated exception, if any. -/
def runSubscribersExc (cbs : Nat → JSValue → Except String Unit)
    (v : JSValue) : List Nat → List Nat × Option String
  | [] => ([], none)
  | i :: rest =>
      match cbs i v with
      | .error e => ([i], some e)
      | .ok _ =>
          let r := runSubscribersExc cbs v rest
          (i :: r.1, r.2)

/-- `notify()` with throwing callbacks: on an exception the DOM writes are
skipped and the exception propagates; otherwise the pass completes as in
`notifySig`. -/
def notifyExc (cbs : Nat → JSValue → Except String Unit) (s : SignalState) :
    SignalState × List Nat × Option String :=
  match runSubscribersExc cbs s.value s.subscribers with
  | (inv, some e) => (s, inv, some e)
  | (inv, none) => ((notifySig s).1, inv, none)

/-- `set(newValue)` with throwing callbacks: the value is stored before
`notify()` runs, so it is updated even when a subscriber throws. -/
def setExc (cbs : Nat → JSValue → Except String Unit) (s : SignalState)
    (v : JSValue) : SignalState × List Nat × Option String :=
  notifyExc cbs { s with value := v }

/-- `update(fn)` when `fn` itself may throw: `value = fn(value)` evaluates
`fn` first, so a throwing `fn` aborts before the assignment and before
`notify()` — the state is untouched and nobody is invoked. -/
def updateExc (cbs : Nat → JSValue → Except String Unit) (s : SignalState)
    (f : JSValue → Except String JSValue) :
    SignalState × List Nat × Option String :=
  match f s.value with
  | .error e => (s, [], some e)
  | .ok v => setExc cbs s v

/-!
World model for `createComputed(name, computeFn, dependencies)`
(src/t3s.js lines 36-44).  The world holds the dependency signals' values,
each dependency's subscriber list, and the computed signal's internal
Signal (its value and its own subscribers).  Subscriber entries are
defunctionalized: `.observer o` is an inert external callback, and
`.recompute` is the closure `() => signal.set(computeFn())` that
`createComputed` registers on every dependency.  `computeFn` is a function
of the dependencies' current values (it reads them via `get()`).  A trace
records every observable step.
-/

/-- A subscriber entry on a dependency signal. -/
inductive Cb where
  | observer (o : Nat)
  | recompute
deriving DecidableEq

/-- Observable events of the computed-signal world. -/
inductive Event where
  /-- external observer `o` of dependency `i` invoked with value `v` -/
  | depInvoked (i : Nat) (o : Nat) (v : JSValue)
  /-- `computeFn()` invoked -/
  | computeRun
  /-- `signal.set v` on the computed signal's internal Signal -/
  | innerSet (v : JSValue)
  /-- subscriber `o` of the computed signal invoked with value `v` -/
  | innerInvoked (o : Nat) (v : JSValue)
deriving DecidableEq

/-- State of the dependencies plus one computed signal built on them. -/
structure CWorld where
  depVals : List JSValue
  depSubs : List (List Cb)
  innerVal : JSValue
  innerSubs : List Nat
  trace : List Event
deriving DecidableEq

/-- `signal.set x` on the computed signal's internal Signal: store the
value and notify its subscribers (its notify pass; DOM targets of the
inner signal are not tracked in this model). -/
def innerSetW (x : JSValue) (w : CWorld) : CWorld :=
  { w with
      innerVal := x,
      trace := (w.trace ++ [Event.innerSet x]) ++
        w.innerSubs.map (fun o => Event.innerInvoked o x) }

/-- Run one subscriber entry of dependency `i`, invoked with the
dependency's new value `v`.  `.recompute` is
`() => signal.set(computeFn())`: it runs `computeFn` against the current
dependency values and writes the result into the internal Signal. -/
def runCb (f : List JSValue → JSValue) (i : Nat) (v : JSValue)
    (w : CWorld) : Cb → CWorld
  | .observer o => { w with trace := w.trace ++ [Event.depInvoked i o v] }
  | .recompute =>
      innerSetW (f w.depVals) { w with trace := w.trace ++ [Event.computeRun] }

/-- `set(v)` on dependency `i`: store the value, then notify that
dependency's subscribers in registration order. -/
def depSetW (f : List JSValue → JSValue) (i : Nat) (v : JSValue)
    (w : CWorld) : CWorld :=
  let w1 := { w with depVals := w.depVals.set i v }
  (w1.depSubs.getD i []).foldl (runCb f i v) w1

/-- `update(g)` on dependency `i`: `value = g(value)` then notify — the
same pass as `set (g oldValue)`. -/
def depUpdateW (f : List JSValue → JSValue) (i : Nat) (g : JSValue → JSValue)
    (w : CWorld) : CWorld :=
  depSetW f i (g (w.depVals.getD i .undefined)) w

/-- `createComputed(name, computeFn, dependencies)` (src/t3s.js lines
36-44): the internal Signal is created with `computeFn()` of the initial
dependency values, and the `.recompute` closure is appended to every
dependency's subscriber set (after any observers `pre` already registered
there).  `innerObs` are the subscribers later registered on the returned
handle (none exist during the internal Signal's creation pass). -/
def createComputedW (f : List JSValue → JSValue) (deps0 : List JSValue)
    (pre : List (List Nat)) (innerObs : List Nat) : CWorld :=
  { depVals := deps0,
    depSubs := (List.range deps0.length).map
      (fun i => (pre.getD i []).map Cb.observer ++ [Cb.recompute]),
    innerVal := f deps0,
    innerSubs := innerObs,
    trace := [] }

/-- One mutation of a dependency signal. -/
inductive DepOp where
  | dset (i : Nat) (v : JSValue)
  | dupdate (i : Nat) (g : JSValue → JSValue)

/-- Apply a sequence of dependency mutations. -/
def applyDepOps (f : List JSValue → JSValue) (ops : List DepOp)
    (w : CWorld) : CWorld :=
  ops.foldl
    (fun w op =>
      match op with
      | .dset i v => depSetW f i v w
      | .dupdate i g => depUpdateW f i g w)
    w

/-- One external action that makes both dependencies of a two-dependency
computed signal notify: `a.set va; b.set vb`. -/
def externalAction (f : List JSValue → JSValue) (va vb : JSValue)
    (w : CWorld) : CWorld :=
  depSetW f 1 vb (depSetW f 0 va w)

/-- Number of `computeFn` invocations recorded in a trace. -/
def countComputeRuns (tr : List Event) : Nat :=
  tr.countP (fun e => match e with | .computeRun => true | _ => false)

/-- Number of `set` calls on the internal Signal recorded in a trace. -/
def countInnerSets (tr : List Event) : Nat :=
  tr.countP (fun e => match e with | .innerSet _ => true | _ => false)

/-- Number of invocations of the computed signal's subscriber `o`
recorded in a trace. -/
def countInnerFires (o : Nat) (tr : List Event) : Nat :=
  tr.countP (fun e => match e with | .innerInvoked o' _ => o' == o | _ => false)

/-!  ## Basic lemmas about the pure signal model  -/

theorem notifySig_value (s : SignalState) : (notifySig s).1.value = s.value :=
  rfl

theorem notifySig_subscribers (s : SignalState) :
    (notifySig s).1.subscribers = s.subscribers :=
  rfl

theorem applySigOps_append (s : SignalState) (ops₁ ops₂ : List SigOp) :
    applySigOps s (ops₁ ++ ops₂) = applySigOps (applySigOps s ops₁) ops₂ :=
  List.foldl_append _ _ _ _

/-!  ## C1 -/

/-- C1: for every Signal and every sequence of set/update calls, `get()`
after the last call returns exactly the last written value: after
`set(v)` it returns `v`, and after `update(fn)` it returns `fn(previous)`
where `previous` is the value held immediately before the update. -/
theorem get_returns_last_written (s0 : SignalState) (ops : List SigOp)
    (v : JSValue) (f : JSValue → JSValue) :
    (applySigOps s0 (ops ++ [SigOp.set v])).value = v ∧
    (applySigOps s0 (ops ++ [SigOp.update f])).value =
      f (applySigOps s0 ops).value := by
  constructor <;>
    simp [applySigOps_append, applySigOps, applySigOp, setSig, updateSig,
      notifySig]

/-!  ## C6 -/

/-- C6: `set(newValue)` replaces the stored value unconditionally and
performs a full notification pass with no equality check — for every
current state and every new value (in particular one identical to the
current value) every subscriber is invoked with the new value, every
bound display target is written the stringified value, and every bound
visibility target is toggled to the value's truthiness. -/
theorem set_unconditional_full_pass (s : SignalState) (v : JSValue) :
    (setSig s v).1.value = v ∧
    (setSig s v).2.calls = s.subscribers.map (fun i => (i, v)) ∧
    (setSig s v).2.textWrites = s.readers.map (fun _ => displayString v) ∧
    (setSig s v).2.visToggles = s.checkers.map (fun _ => truthy v) ∧
    (setSig s v).1.readers = s.readers.map (fun _ => ⟨displayString v⟩) ∧
    (setSig s v).1.checkers = s.checkers.map
      (fun c => ⟨classListToggleForce c.classList "visible" (truthy v)⟩) := by
  refine ⟨rfl, rfl, rfl, rfl, rfl, rfl⟩

/-!  ## C9 -/

/-- C9: when the function passed to `update` throws on the current value,
the exception propagates to the caller, the stored value (and every
reader/checker) is unchanged, and no notification happens at all: no
subscriber is invoked and no display or visibility target is written. -/
theorem update_throwing_fn_is_atomic (cbs : Nat → JSValue → Except String Unit)
    (s : SignalState) (f : JSValue → Except String JSValue) (e : String)
    (hf : f s.value = .error e) :
    updateExc cbs s f = (s, [], some e) := by
  simp [updateExc, hf]

/-- C9 witness: a concrete signal whose `update` function throws — the
state survives untouched, nothing fires, the exception propagates. -/
theorem update_throwing_fn_is_atomic_witness :
    (fun _ : JSValue => (.error "boom" : Except String JSValue))
        (SignalState.mk (.num 3) [0, 1] [⟨"3"⟩] [⟨["visible"]⟩]).value
      = .error "boom" ∧
    updateExc (fun _ _ => .ok ()) ⟨.num 3, [0, 1], [⟨"3"⟩], [⟨["visible"]⟩]⟩
        (fun _ => .error "boom")
      = (⟨.num 3, [0, 1], [⟨"3"⟩], [⟨["visible"]⟩]⟩, [], some "boom") :=
  ⟨rfl, update_throwing_fn_is_atomic (fun _ _ => .ok ())
    ⟨.num 3, [0, 1], [⟨"3"⟩], [⟨["visible"]⟩]⟩ (fun _ => .error "boom")
    "boom" rfl⟩

/-!  ## C8 -/

theorem map_pair_filter (v : JSValue) (p : Nat → Bool) (l : List Nat) :
    (l.filter p).map (fun i => (i, v)) =
      (l.map (fun i => (i, v))).filter (fun q => p q.1) := by
  induction l with
  | nil => rfl
  | cons a t ih => by_cases hp : p a <;> simp [hp, ih]

/-- C8: invoking the handle returned by `subscribe` removes exactly that
registration — a subsequent `set` never invokes the removed callback, the
other registered callbacks are invoked exactly as they would have been
without the removal (same order, same value), and invoking the handle a
second time is a no-op, since removing an absent entry changes nothing. -/
theorem unsubscribe_removes_exactly_one (s : SignalState) (id : Nat)
    (v : JSValue) (h : s.subscribers.Nodup) :
    (∀ x, (id, x) ∉ (setSig (unsubscribeSig s id) v).2.calls) ∧
    (setSig (unsubscribeSig s id) v).2.calls =
      ((setSig s v).2.calls).filter (fun q => q.1 ≠ id) ∧
    unsubscribeSig (unsubscribeSig s id) id = unsubscribeSig s id := by
  refine ⟨?_, ?_, ?_⟩
  · intro x hx
    simp only [setSig, notifySig, unsubscribeSig, List.mem_map] at hx
    rcases hx with ⟨i, hi, heq⟩
    have : i = id := congrArg Prod.fst heq
    subst this
    exact (List.Nodup.mem_erase_iff h).mp hi |>.1 rfl
  · show ((s.subscribers.erase id).map fun i => (i, v)) = _
    rw [List.Nodup.erase_eq_filter h,
      map_pair_filter v (fun x => x != id) s.subscribers]
    have hpred : (fun q : Nat × JSValue => q.1 != id) =
        (fun q : Nat × JSValue => decide (q.1 ≠ id)) := by
      funext q
      by_cases hq : q.1 = id <;> simp [hq]
    rw [hpred]
    rfl
  · simp only [unsubscribeSig]
    rw [List.erase_of_not_mem (List.Nodup.not_mem_erase h)]

/-- C8 witness: on the concrete signal with subscribers `[1, 2]`,
unsubscribing `1` removes exactly it. -/
theorem unsubscribe_removes_exactly_one_witness :
    ([1, 2] : List Nat).Nodup ∧
    ((∀ x, (1, x) ∉
        (setSig (unsubscribeSig ⟨.num 0, [1, 2], [], []⟩ 1) (.num 5)).2.calls) ∧
      (setSig (unsubscribeSig ⟨.num 0, [1, 2], [], []⟩ 1) (.num 5)).2.calls =
        ((setSig ⟨.num 0, [1, 2], [], []⟩ (.num 5)).2.calls).filter
          (fun q => q.1 ≠ 1) ∧
      unsubscribeSig (unsubscribeSig ⟨.num 0, [1, 2], [], []⟩ 1) 1 =
        unsubscribeSig ⟨.num 0, [1, 2], [], []⟩ 1) :=
  ⟨by decide,
   unsubscribe_removes_exactly_one ⟨.num 0, [1, 2], [], []⟩ 1 (.num 5)
     (by decide)⟩

/-!  ## C4 -/

theorem runSubscribersExc_append_error (cbs : Nat → JSValue → Except String Unit)
    (v : JSValue) (l1 : List Nat) (k : Nat) (l2 : List Nat) (e : String)
    (hok : ∀ i ∈ l1, cbs i v = .ok ()) (hk : cbs k v = .error e) :
    runSubscribersExc cbs v (l1 ++ k :: l2) = (l1 ++ [k], some e) := by
  induction l1 with
  | nil => simp [runSubscribersExc, hk]
  | cons a t ih =>
      have ha : cbs a v = .ok () := hok a (by simp)
      simp [runSubscribersExc, ha, ih (fun i hi => hok i (by simp [hi]))]

/-- C4: a subscriber callback that raises during a notification pass is
not caught anywhere — the exception propagates out of the triggering
`set`, the subscribers after the raising one are not invoked, and the
display/visibility targets (which come after the subscriber loop in the
pass) are not written at all; only the value assignment, which precedes
`notify()`, has happened. -/
theorem subscriber_exception_aborts_pass
    (cbs : Nat → JSValue → Except String Unit) (s : SignalState) (v : JSValue)
    (l1 : List Nat) (k : Nat) (l2 : List Nat) (e : String)
    (hsubs : s.subscribers = l1 ++ k :: l2)
    (hok : ∀ i ∈ l1, cbs i v = .ok ()) (hk : cbs k v = .error e) :
    setExc cbs s v = ({ s with value := v }, l1 ++ [k], some e) := by
  simp [setExc, notifyExc, hsubs,
    runSubscribersExc_append_error cbs v l1 k l2 e hok hk]

/-- C4 witness: with subscribers `[0, 1, 2]` where callback `1` throws,
`set` propagates the exception, invokes only `[0, 1]`, and leaves the
reader and checker untouched. -/
theorem subscriber_exception_aborts_pass_witness :
    (∀ i ∈ ([0] : List Nat),
      (fun i (_ : JSValue) =>
          if i == 1 then Except.error "boom" else Except.ok ()) i (.num 7) =
        Except.ok ()) ∧
    setExc (fun i _ => if i == 1 then Except.error "boom" else Except.ok ())
        ⟨.num 0, [0, 1, 2], [⟨"t"⟩], [⟨[]⟩]⟩ (.num 7) =
      (⟨.num 7, [0, 1, 2], [⟨"t"⟩], [⟨[]⟩]⟩, [0, 1], some "boom") :=
  ⟨fun i hi => by
      rcases List.mem_singleton.mp hi with rfl
      rfl,
   subscriber_exception_aborts_pass
     (fun i _ => if i == 1 then Except.error "boom" else Except.ok ())
     ⟨.num 0, [0, 1, 2], [⟨"t"⟩], [⟨[]⟩]⟩ (.num 7) [0] 1 [2] "boom" rfl
     (fun i hi => by
       rcases List.mem_singleton.mp hi with rfl
       rfl)
     rfl⟩

/-!  ## C10 -/

theorem classListToggleForce_eq_branch (cl : List String) (tok : String)
    (force : Bool) :
    classListToggleForce cl tok force =
      if force then classListAdd cl tok else classListRemove cl tok := by
  by_cases hm : tok ∈ cl <;> cases force <;>
    simp [classListToggleForce, classListAdd, classListRemove, hm]
  symm
  rw [List.filter_eq_self]
  intro a ha
  simp only [decide_not, Bool.not_eq_eq_eq_not, Bool.not_true, decide_eq_false_iff_not]
  intro h
  exact hm (h ▸ ha)

theorem notifySig_eq_notifySigB : notifySig = notifySigB := by
  funext s
  simp [notifySig, notifySigB, classListToggleForce_eq_branch]

/-- C10: the `createSignal` in src/t3s.js and the one in
src/unnamed/part_000 are observationally equivalent — for every initial
value, bound target lists, and sequence of get/set/update/
subscribe/unsubscribe calls, they produce the same final state (value,
subscriber set, reader text, checker class lists) and identical
notification traces; in particular `classList.toggle('visible', !!value)`
leaves the same class presence as the `if (!!value) add else remove`
branch for every value. -/
theorem toggle_and_branch_impls_equivalent (init : JSValue)
    (rs : List Reader) (cs : List Checker) (ops : List SigOp) :
    runImplA init rs cs ops = runImplB init rs cs ops := by
  unfold runImplA runImplB
  simp [setSig, updateSig, createSignalRun, notifySig_eq_notifySigB]

/-!  ## C7 -/

theorem mem_classListToggleForce (cl : List String) (tok : String)
    (force : Bool) :
    tok ∈ classListToggleForce cl tok force ↔ force = true := by
  by_cases hm : tok ∈ cl <;> cases force <;>
    simp [classListToggleForce, classListRemove, hm]

theorem visInvariant_step (s : SignalState)
    (hs : ∀ c ∈ s.checkers, ("visible" ∈ c.classList ↔ truthy s.value = true))
    (op : SigOp) :
    ∀ c ∈ (applySigOp s op).checkers,
      ("visible" ∈ c.classList ↔ truthy (applySigOp s op).value = true) := by
  cases op with
  | set v =>
      intro c hc
      simp only [applySigOp, setSig, notifySig, List.mem_map] at hc
      rcases hc with ⟨c0, _, rfl⟩
      simpa using mem_classListToggleForce c0.classList "visible" (truthy v)
  | update f =>
      intro c hc
      simp only [applySigOp, updateSig, notifySig, List.mem_map] at hc
      rcases hc with ⟨c0, _, rfl⟩
      simpa using mem_classListToggleForce c0.classList "visible"
        (truthy (f s.value))
  | subscribe id => intro c hc; exact hs c hc
  | unsubscribe id => intro c hc; exact hs c hc

theorem visInvariant_run (ops : List SigOp) :
    ∀ s : SignalState,
      (∀ c ∈ s.checkers, ("visible" ∈ c.classList ↔ truthy s.value = true)) →
      ∀ c ∈ (applySigOps s ops).checkers,
        ("visible" ∈ c.classList ↔ truthy (applySigOps s ops).value = true) := by
  induction ops with
  | nil => intro s hs; exact hs
  | cons op rest ih => intro s hs; exact ih _ (visInvariant_step s hs op)

theorem visInvariant_create (init : JSValue) (rs : List Reader)
    (cs : List Checker) :
    ∀ c ∈ (createSignalRun init rs cs).1.checkers,
      ("visible" ∈ c.classList ↔
        truthy (createSignalRun init rs cs).1.value = true) := by
  intro c hc
  simp only [createSignalRun, notifySig, List.mem_map] at hc
  rcases hc with ⟨c0, _, rfl⟩
  simpa using mem_classListToggleForce c0.classList "visible" (truthy init)

/-- C7: for every Signal and every bound visibility target, after
construction and after every set/update the target carries the `visible`
class if and only if the current value is truthy under JS coercion —
in particular `0` and `""` leave the flag absent while `"0"` and `-1`
leave it present. -/
theorem visibility_iff_truthy (init : JSValue) (rs : List Reader)
    (cs : List Checker) (ops : List SigOp) (c : Checker)
    (hc : c ∈ (applySigOps (createSignalRun init rs cs).1 ops).checkers) :
    ("visible" ∈ c.classList ↔
      truthy (applySigOps (createSignalRun init rs cs).1 ops).value = true) ∧
    truthy (.num 0) = false ∧ truthy (.str "") = false ∧
    truthy (.str "0") = true ∧ truthy (.num (-1)) = true :=
  ⟨visInvariant_run ops _ (visInvariant_create init rs cs) c hc,
   by decide, by decide, by decide, by decide⟩

/-- C7 witness: starting at value `0` (flag absent) and setting the
truthy string `"0"`, the concrete checker ends up carrying the flag. -/
theorem visibility_iff_truthy_witness :
    (Checker.mk ["visible"] ∈
      (applySigOps (createSignalRun (.num 0) [] [⟨[]⟩]).1
        [SigOp.set (.str "0")]).checkers) ∧
    (("visible" ∈ (Checker.mk ["visible"]).classList ↔
        truthy (applySigOps (createSignalRun (.num 0) [] [⟨[]⟩]).1
          [SigOp.set (.str "0")]).value = true) ∧
      truthy (.num 0) = false ∧ truthy (.str "") = false ∧
      truthy (.str "0") = true ∧ truthy (.num (-1)) = true) :=
  ⟨by decide,
   visibility_iff_truthy (.num 0) [] [⟨[]⟩] [SigOp.set (.str "0")]
     ⟨["visible"]⟩ (by decide)⟩

/-!  ## C3 -/

theorem mem_forEachWithDeletes (effects : Nat → List Nat) (v : JSValue)
    (p : List Nat) :
    ∀ (a : List Nat) (x : Nat × JSValue),
      x ∈ forEachWithDeletes effects v p a → x.1 ∈ p := by
  induction p with
  | nil => intro a x hx; simp [forEachWithDeletes] at hx
  | cons i rest ih =>
      intro a x hx
      by_cases hi : i ∈ a
      · rw [forEachWithDeletes, if_pos hi] at hx
        rcases List.mem_cons.mp hx with h1 | hx'
        · rw [h1]; exact List.mem_cons_self _ _
        · exact List.mem_cons_of_mem _ (ih _ _ hx')
      · rw [forEachWithDeletes, if_neg hi] at hx
        exact List.mem_cons_of_mem _ (ih _ _ hx)

theorem count_forEachWithDeletes_le_one (effects : Nat → List Nat)
    (v : JSValue) (p : List Nat) (hp : p.Nodup) :
    ∀ (a : List Nat) (j : Nat),
      (forEachWithDeletes effects v p a).count (j, v) ≤ 1 := by
  induction p with
  | nil => intro a j; simp [forEachWithDeletes]
  | cons i rest ih =>
      intro a j
      have hrest : rest.Nodup := (List.nodup_cons.mp hp).2
      have hi_not : i ∉ rest := (List.nodup_cons.mp hp).1
      by_cases hi : i ∈ a
      · rw [forEachWithDeletes, if_pos hi, List.count_cons]
        by_cases hij : j = i
        · subst hij
          have hzero : ∀ a' : List Nat,
              (forEachWithDeletes effects v rest a').count (j, v) = 0 := by
            intro a'
            rw [List.count_eq_zero]
            intro hmem
            exact hi_not (mem_forEachWithDeletes effects v rest _ _ hmem)
          simp [hzero]
        · have hne : ((i, v) == (j, v)) = false := by
            simpa using fun h : i = j => hij h.symm
          rw [hne]
          simpa using ih hrest _ j
      · rw [forEachWithDeletes, if_neg hi]
        exact ih hrest _ j

theorem forEachWithDeletes_mem_of_kept (effects : Nat → List Nat)
    (v : JSValue) (p : List Nat) :
    ∀ (a : List Nat) (j : Nat), j ∈ p → j ∈ a →
      (∀ x ∈ forEachWithDeletes effects v p a, j ∉ effects x.1) →
      (j, v) ∈ forEachWithDeletes effects v p a := by
  induction p with
  | nil => intro a j hj; cases hj
  | cons i rest ih =>
      intro a j hj hja hkept
      by_cases hi : i ∈ a
      · rw [forEachWithDeletes, if_pos hi] at hkept ⊢
        have hhead : j ∉ effects i :=
          hkept (i, v) (List.mem_cons_self _ _)
        rcases List.mem_cons.mp hj with h1 | hjr
        · subst h1; exact List.mem_cons_self _ _
        · refine List.mem_cons_of_mem _ (ih _ j hjr ?_ ?_)
          · exact List.mem_filter.mpr ⟨hja, by simpa using hhead⟩
          · intro x hx
            exact hkept x (List.mem_cons_of_mem _ hx)
      · rw [forEachWithDeletes, if_neg hi] at hkept ⊢
        rcases List.mem_cons.mp hj with h1 | hjr
        · subst h1; exact absurd hja hi
        · exact ih _ j hjr hja hkept

/-- C3: during a notification pass triggered by `set`, when subscriber
callbacks unsubscribe other callbacks (or themselves) mid-pass, every
callback that was registered at the moment the pass began and is not
unsubscribed during the pass is still invoked exactly once with the new
value, and no callback whatsoever is invoked twice — `Set.forEach` under
concurrent `Set.delete` skips deleted entries but never skips or
duplicates the remaining ones. -/
theorem unsubscribe_mid_pass_exact_once (effects : Nat → List Nat)
    (s : SignalState) (v : JSValue) (j : Nat)
    (hnd : s.subscribers.Nodup) (hj : j ∈ s.subscribers)
    (hkept : ∀ x ∈ setWithUnsubscribers effects s v, j ∉ effects x.1) :
    (setWithUnsubscribers effects s v).count (j, v) = 1 ∧
    ∀ j', (setWithUnsubscribers effects s v).count (j', v) ≤ 1 := by
  simp only [setWithUnsubscribers] at hkept ⊢
  constructor
  · have h1 := forEachWithDeletes_mem_of_kept effects v s.subscribers
      s.subscribers j hj hj hkept
    have h2 := count_forEachWithDeletes_le_one effects v s.subscribers hnd
      s.subscribers j
    have h3 : 0 < (forEachWithDeletes effects v s.subscribers
        s.subscribers).count (j, v) :=
      List.count_pos_iff.mpr h1
    omega
  · intro j'
    exact count_forEachWithDeletes_le_one effects v s.subscribers hnd
      s.subscribers j'

/-- C3 witness: subscribers `[0, 1, 2]` where callback `0` unsubscribes
callback `1` mid-pass — callback `2` is still invoked exactly once with
the new value. -/
theorem unsubscribe_mid_pass_exact_once_witness :
    (([0, 1, 2] : List Nat).Nodup ∧ 2 ∈ ([0, 1, 2] : List Nat) ∧
      ∀ x ∈ setWithUnsubscribers (fun i => if i == 0 then [1] else [])
          ⟨.num 9, [0, 1, 2], [], []⟩ (.num 5),
        2 ∉ (fun i => if i == 0 then [1] else ([] : List Nat)) x.1) ∧
    (setWithUnsubscribers (fun i => if i == 0 then [1] else [])
        ⟨.num 9, [0, 1, 2], [], []⟩ (.num 5)).count (2, .num 5) = 1 :=
  ⟨⟨by decide, by decide, by decide⟩,
   (unsubscribe_mid_pass_exact_once (fun i => if i == 0 then [1] else [])
      ⟨.num 9, [0, 1, 2], [], []⟩ (.num 5) 2 (by decide) (by decide)
      (by decide)).1⟩

/-!  ## Lemmas about the computed-signal world -/

theorem runCb_depVals (f : List JSValue → JSValue) (i : Nat) (v : JSValue)
    (w : CWorld) (c : Cb) : (runCb f i v w c).depVals = w.depVals := by
  cases c <;> rfl

theorem runCb_depSubs (f : List JSValue → JSValue) (i : Nat) (v : JSValue)
    (w : CWorld) (c : Cb) : (runCb f i v w c).depSubs = w.depSubs := by
  cases c <;> rfl

theorem runCb_innerSubs (f : List JSValue → JSValue) (i : Nat) (v : JSValue)
    (w : CWorld) (c : Cb) : (runCb f i v w c).innerSubs = w.innerSubs := by
  cases c <;> rfl

theorem foldCb_depVals (f : List JSValue → JSValue) (i : Nat) (v : JSValue)
    (cbs : List Cb) :
    ∀ w : CWorld, (cbs.foldl (runCb f i v) w).depVals = w.depVals := by
  induction cbs with
  | nil => intro w; rfl
  | cons c rest ih =>
      intro w
      rw [List.foldl_cons, ih, runCb_depVals]

theorem foldCb_depSubs (f : List JSValue → JSValue) (i : Nat) (v : JSValue)
    (cbs : List Cb) :
    ∀ w : CWorld, (cbs.foldl (runCb f i v) w).depSubs = w.depSubs := by
  induction cbs with
  | nil => intro w; rfl
  | cons c rest ih =>
      intro w
      rw [List.foldl_cons, ih, runCb_depSubs]

theorem foldCb_innerSubs (f : List JSValue → JSValue) (i : Nat) (v : JSValue)
    (cbs : List Cb) :
    ∀ w : CWorld, (cbs.foldl (runCb f i v) w).innerSubs = w.innerSubs := by
  induction cbs with
  | nil => intro w; rfl
  | cons c rest ih =>
      intro w
      rw [List.foldl_cons, ih, runCb_innerSubs]

theorem foldCb_innerVal_no_recompute (f : List JSValue → JSValue) (i : Nat)
    (v : JSValue) :
    ∀ cbs : List Cb, Cb.recompute ∉ cbs →
      ∀ w : CWorld, (cbs.foldl (runCb f i v) w).innerVal = w.innerVal := by
  intro cbs
  induction cbs with
  | nil => intro _ w; rfl
  | cons c rest ih =>
      intro h w
      have hr : Cb.recompute ∉ rest := fun hh => h (List.mem_cons_of_mem _ hh)
      rw [List.foldl_cons, ih hr]
      cases c with
      | observer o => rfl
      | recompute => exact absurd (List.mem_cons_self _ _) h

theorem foldCb_innerVal_recompute (f : List JSValue → JSValue) (i : Nat)
    (v : JSValue) :
    ∀ cbs : List Cb, Cb.recompute ∈ cbs →
      ∀ w : CWorld, (cbs.foldl (runCb f i v) w).innerVal = f w.depVals := by
  intro cbs
  induction cbs with
  | nil => intro h; cases h
  | cons c rest ih =>
      intro h w
      rw [List.foldl_cons]
      by_cases hr : Cb.recompute ∈ rest
      · rw [ih hr, runCb_depVals]
      · have hc : c = Cb.recompute := by
          rcases List.mem_cons.mp h with h1 | h2
          · exact h1.symm
          · exact absurd h2 hr
        subst hc
        rw [foldCb_innerVal_no_recompute f i v rest hr]
        rfl

theorem depSetW_depVals (f : List JSValue → JSValue) (i : Nat) (v : JSValue)
    (w : CWorld) : (depSetW f i v w).depVals = w.depVals.set i v :=
  foldCb_depVals f i v _ _

theorem depSetW_depSubs (f : List JSValue → JSValue) (i : Nat) (v : JSValue)
    (w : CWorld) : (depSetW f i v w).depSubs = w.depSubs :=
  foldCb_depSubs f i v _ _

theorem depSetW_innerSubs (f : List JSValue → JSValue) (i : Nat) (v : JSValue)
    (w : CWorld) : (depSetW f i v w).innerSubs = w.innerSubs :=
  foldCb_innerSubs f i v _ _

theorem depSetW_innerVal_of_recompute (f : List JSValue → JSValue) (i : Nat)
    (v : JSValue) (w : CWorld) (h : Cb.recompute ∈ w.depSubs.getD i []) :
    (depSetW f i v w).innerVal = f (w.depVals.set i v) :=
  foldCb_innerVal_recompute f i v _ h _

theorem depSetW_keeps_track (f : List JSValue → JSValue) (i : Nat)
    (v : JSValue) (w : CWorld)
    (h1 : ∀ i', i' < w.depVals.length → Cb.recompute ∈ w.depSubs.getD i' [])
    (h2 : w.depSubs.length = w.depVals.length)
    (h3 : w.innerVal = f w.depVals) :
    (depSetW f i v w).innerVal = f (depSetW f i v w).depVals := by
  by_cases hi : i < w.depVals.length
  · rw [depSetW_innerVal_of_recompute f i v w (h1 i hi), depSetW_depVals]
  · have hset : w.depVals.set i v = w.depVals :=
      List.set_eq_of_length_le (by omega)
    have hsubs : w.depSubs.getD i [] = [] :=
      List.getD_eq_default _ _ (by omega)
    have hnr : Cb.recompute ∉ w.depSubs.getD i [] := by
      rw [hsubs]; simp
    have hinner : (depSetW f i v w).innerVal = w.innerVal :=
      foldCb_innerVal_no_recompute f i v _ hnr _
    rw [hinner, depSetW_depVals, hset, h3]

theorem applyDepOps_preserved (f : List JSValue → JSValue) (ops : List DepOp) :
    ∀ w : CWorld,
      (applyDepOps f ops w).depSubs = w.depSubs ∧
      (applyDepOps f ops w).innerSubs = w.innerSubs ∧
      (applyDepOps f ops w).depVals.length = w.depVals.length := by
  induction ops with
  | nil => intro w; exact ⟨rfl, rfl, rfl⟩
  | cons op rest ih =>
      intro w
      cases op with
      | dset i v =>
          have h := ih (depSetW f i v w)
          refine ⟨?_, ?_, ?_⟩
          · rw [show applyDepOps f (DepOp.dset i v :: rest) w =
              applyDepOps f rest (depSetW f i v w) from rfl, h.1,
              depSetW_depSubs]
          · rw [show applyDepOps f (DepOp.dset i v :: rest) w =
              applyDepOps f rest (depSetW f i v w) from rfl, h.2.1,
              depSetW_innerSubs]
          · rw [show applyDepOps f (DepOp.dset i v :: rest) w =
              applyDepOps f rest (depSetW f i v w) from rfl, h.2.2,
              depSetW_depVals, List.length_set]
      | dupdate i g =>
          have h := ih (depUpdateW f i g w)
          refine ⟨?_, ?_, ?_⟩
          · rw [show applyDepOps f (DepOp.dupdate i g :: rest) w =
              applyDepOps f rest (depUpdateW f i g w) from rfl, h.1,
              depUpdateW, depSetW_depSubs]
          · rw [show applyDepOps f (DepOp.dupdate i g :: rest) w =
              applyDepOps f rest (depUpdateW f i g w) from rfl, h.2.1,
              depUpdateW, depSetW_innerSubs]
          · rw [show applyDepOps f (DepOp.dupdate i g :: rest) w =
              applyDepOps f rest (depUpdateW f i g w) from rfl, h.2.2,
              depUpdateW, depSetW_depVals, List.length_set]

theorem applyDepOps_innerVal_tracks (f : List JSValue → JSValue)
    (ops : List DepOp) :
    ∀ w : CWorld,
      (∀ i, i < w.depVals.length → Cb.recompute ∈ w.depSubs.getD i []) →
      w.depSubs.length = w.depVals.length →
      w.innerVal = f w.depVals →
      (applyDepOps f ops w).innerVal = f (applyDepOps f ops w).depVals := by
  induction ops with
  | nil => intro w _ _ h3; exact h3
  | cons op rest ih =>
      intro w h1 h2 h3
      have hstep : ∀ w' : CWorld, w'.depSubs = w.depSubs →
          w'.depVals.length = w.depVals.length →
          w'.innerVal = f w'.depVals →
          (applyDepOps f rest w').innerVal =
            f (applyDepOps f rest w').depVals := by
        intro w' hws hwl hwv
        refine ih w' ?_ ?_ hwv
        · intro i hi
          rw [hws]
          exact h1 i (hwl ▸ hi)
        · rw [hws, hwl]
          exact h2
      cases op with
      | dset i v =>
          exact hstep (depSetW f i v w) (depSetW_depSubs f i v w)
            (by rw [depSetW_depVals, List.length_set])
            (depSetW_keeps_track f i v w h1 h2 h3)
      | dupdate i g =>
          exact hstep (depUpdateW f i g w)
            (by rw [depUpdateW]; exact depSetW_depSubs f _ _ w)
            (by rw [depUpdateW, depSetW_depVals, List.length_set])
            (by rw [depUpdateW]; exact depSetW_keeps_track f _ _ w h1 h2 h3)

theorem createComputedW_wf (f : List JSValue → JSValue) (deps0 : List JSValue)
    (pre : List (List Nat)) (innerObs : List Nat) :
    (∀ i, i < (createComputedW f deps0 pre innerObs).depVals.length →
      Cb.recompute ∈ (createComputedW f deps0 pre innerObs).depSubs.getD i []) ∧
    (createComputedW f deps0 pre innerObs).depSubs.length =
      (createComputedW f deps0 pre innerObs).depVals.length := by
  constructor
  · intro i hi
    simp only [createComputedW] at hi ⊢
    rw [List.getD_eq_getElem?_getD, List.getElem?_map, List.getElem?_range hi]
    simp
  · simp [createComputedW]

/-!  ## C2 -/

/-- C2: a Computed Signal's `get()` equals `computeFn()` evaluated on the
dependencies' current values, both immediately after construction
(`ops = []`) and after every `set`/`update` on any dependency — the
recompute subscription registered on each dependency re-establishes the
equation on every notification. -/
theorem computed_tracks_dependencies (f : List JSValue → JSValue)
    (deps0 : List JSValue) (pre : List (List Nat)) (innerObs : List Nat)
    (ops : List DepOp) :
    (applyDepOps f ops (createComputedW f deps0 pre innerObs)).innerVal =
      f (applyDepOps f ops (createComputedW f deps0 pre innerObs)).depVals :=
  applyDepOps_innerVal_tracks f ops _
    (createComputedW_wf f deps0 pre innerObs).1
    (createComputedW_wf f deps0 pre innerObs).2
    rfl

/-!  ## Counting lemmas for C5 -/

theorem countComputeRuns_runCb (f : List JSValue → JSValue) (i : Nat)
    (v : JSValue) (w : CWorld) (c : Cb) :
    countComputeRuns (runCb f i v w c).trace =
      countComputeRuns w.trace + (if c = Cb.recompute then 1 else 0) := by
  cases c with
  | observer o => simp [runCb, countComputeRuns, List.countP_append]
  | recompute =>
      simp [runCb, innerSetW, countComputeRuns, List.countP_append,
        List.countP_map, Function.comp]

theorem countInnerSets_runCb (f : List JSValue → JSValue) (i : Nat)
    (v : JSValue) (w : CWorld) (c : Cb) :
    countInnerSets (runCb f i v w c).trace =
      countInnerSets w.trace + (if c = Cb.recompute then 1 else 0) := by
  cases c with
  | observer o => simp [runCb, countInnerSets, List.countP_append]
  | recompute =>
      simp [runCb, innerSetW, countInnerSets, List.countP_append,
        List.countP_map, Function.comp]

theorem countInnerFires_innerInvoked_map (o : Nat) (l : List Nat)
    (x : JSValue) :
    countInnerFires o (l.map fun o' => Event.innerInvoked o' x) =
      l.count o := by
  rw [countInnerFires, List.countP_map]
  rfl

theorem countInnerFires_runCb (f : List JSValue → JSValue) (i : Nat)
    (v : JSValue) (w : CWorld) (c : Cb) (o : Nat) :
    countInnerFires o (runCb f i v w c).trace =
      countInnerFires o w.trace +
        (if c = Cb.recompute then w.innerSubs.count o else 0) := by
  cases c with
  | observer o' => simp [runCb, countInnerFires, List.countP_append]
  | recompute =>
      show countInnerFires o (((w.trace ++ [Event.computeRun]) ++
          [Event.innerSet (f w.depVals)]) ++
          (w.innerSubs.map fun o' => Event.innerInvoked o' (f w.depVals))) = _
      rw [countInnerFires, List.countP_append, List.countP_append,
        List.countP_append]
      rw [show (List.countP _ (w.innerSubs.map
          fun o' => Event.innerInvoked o' (f w.depVals))) =
        countInnerFires o (w.innerSubs.map
          fun o' => Event.innerInvoked o' (f w.depVals)) from rfl]
      rw [countInnerFires_innerInvoked_map]
      simp [countInnerFires]

theorem countComputeRuns_foldCb (f : List JSValue → JSValue) (i : Nat)
    (v : JSValue) (cbs : List Cb) :
    ∀ w : CWorld,
      countComputeRuns ((cbs.foldl (runCb f i v) w).trace) =
        countComputeRuns w.trace + cbs.count Cb.recompute := by
  induction cbs with
  | nil => intro w; simp
  | cons c rest ih =>
      intro w
      rw [List.foldl_cons, ih, countComputeRuns_runCb, List.count_cons]
      cases c <;> simp
      omega

theorem countInnerSets_foldCb (f : List JSValue → JSValue) (i : Nat)
    (v : JSValue) (cbs : List Cb) :
    ∀ w : CWorld,
      countInnerSets ((cbs.foldl (runCb f i v) w).trace) =
        countInnerSets w.trace + cbs.count Cb.recompute := by
  induction cbs with
  | nil => intro w; simp
  | cons c rest ih =>
      intro w
      rw [List.foldl_cons, ih, countInnerSets_runCb, List.count_cons]
      cases c <;> simp
      omega

theorem countInnerFires_foldCb (f : List JSValue → JSValue) (i : Nat)
    (v : JSValue) (o : Nat) (cbs : List Cb) :
    ∀ w : CWorld,
      countInnerFires o ((cbs.foldl (runCb f i v) w).trace) =
        countInnerFires o w.trace +
          cbs.count Cb.recompute * w.innerSubs.count o := by
  induction cbs with
  | nil => intro w; simp
  | cons c rest ih =>
      intro w
      rw [List.foldl_cons, ih, countInnerFires_runCb, runCb_innerSubs,
        List.count_cons]
      cases c with
      | observer o' => simp
      | recompute =>
          have h1 : (if (Cb.recompute : Cb) = Cb.recompute
              then w.innerSubs.count o else 0) = w.innerSubs.count o :=
            if_pos rfl
          have h2 : (List.count Cb.recompute rest +
              if (Cb.recompute == Cb.recompute) = true then 1 else 0) =
            List.count Cb.recompute rest + 1 := by simp
          rw [h1, h2, Nat.add_mul, Nat.one_mul]
          omega

theorem countComputeRuns_depSetW (f : List JSValue → JSValue) (i : Nat)
    (v : JSValue) (w : CWorld) :
    countComputeRuns (depSetW f i v w).trace =
      countComputeRuns w.trace +
        (w.depSubs.getD i []).count Cb.recompute :=
  countComputeRuns_foldCb f i v _ _

theorem countInnerSets_depSetW (f : List JSValue → JSValue) (i : Nat)
    (v : JSValue) (w : CWorld) :
    countInnerSets (depSetW f i v w).trace =
      countInnerSets w.trace +
        (w.depSubs.getD i []).count Cb.recompute :=
  countInnerSets_foldCb f i v _ _

theorem countInnerFires_depSetW (f : List JSValue → JSValue) (i : Nat)
    (v : JSValue) (w : CWorld) (o : Nat) :
    countInnerFires o (depSetW f i v w).trace =
      countInnerFires o w.trace +
        (w.depSubs.getD i []).count Cb.recompute * w.innerSubs.count o :=
  countInnerFires_foldCb f i v o _ _

theorem count_recompute_map_observer (l : List Nat) :
    (l.map Cb.observer).count Cb.recompute = 0 := by
  rw [List.count_eq_zero]
  simp

/-!  ## C5 -/

/-- C5: `computeFn` is re-invoked exactly once per notification from any
single dependency, with no coalescing — starting from any state reachable
from a two-dependency `createComputed`, one external action that sets
both dependencies (`a.set va; b.set vb`) makes `computeFn` run exactly
twice, produces exactly two fresh `set`s on the internal Signal, and
fires each subscriber of the computed signal twice (`2 * count` is `2`
for a subscriber registered once); a single dependency's `set` makes
`computeFn` run exactly once. -/
theorem compute_runs_twice_for_two_dep_action (f : List JSValue → JSValue)
    (a0 b0 : JSValue) (pre0 pre1 : List Nat) (innerObs : List Nat)
    (ops : List DepOp) (va vb : JSValue) (o : Nat) :
    countComputeRuns (externalAction f va vb (applyDepOps f ops
        (createComputedW f [a0, b0] [pre0, pre1] innerObs))).trace =
      countComputeRuns (applyDepOps f ops
        (createComputedW f [a0, b0] [pre0, pre1] innerObs)).trace + 2 ∧
    countInnerSets (externalAction f va vb (applyDepOps f ops
        (createComputedW f [a0, b0] [pre0, pre1] innerObs))).trace =
      countInnerSets (applyDepOps f ops
        (createComputedW f [a0, b0] [pre0, pre1] innerObs)).trace + 2 ∧
    countInnerFires o (externalAction f va vb (applyDepOps f ops
        (createComputedW f [a0, b0] [pre0, pre1] innerObs))).trace =
      countInnerFires o (applyDepOps f ops
        (createComputedW f [a0, b0] [pre0, pre1] innerObs)).trace +
        2 * innerObs.count o ∧
    countComputeRuns (depSetW f 0 va (applyDepOps f ops
        (createComputedW f [a0, b0] [pre0, pre1] innerObs))).trace =
      countComputeRuns (applyDepOps f ops
        (createComputedW f [a0, b0] [pre0, pre1] innerObs)).trace + 1 := by
  have hpres := applyDepOps_preserved f ops
    (createComputedW f [a0, b0] [pre0, pre1] innerObs)
  revert hpres
  generalize applyDepOps f ops
    (createComputedW f [a0, b0] [pre0, pre1] innerObs) = W
  intro hpres
  have hsubs : W.depSubs = [pre0.map Cb.observer ++ [Cb.recompute],
      pre1.map Cb.observer ++ [Cb.recompute]] := by
    rw [hpres.1]; rfl
  have hin : W.innerSubs = innerObs := hpres.2.1
  refine ⟨?_, ?_, ?_, ?_⟩
  · rw [externalAction, countComputeRuns_depSetW, depSetW_depSubs,
      countComputeRuns_depSetW, hsubs]
    simp [count_recompute_map_observer]
  · rw [externalAction, countInnerSets_depSetW, depSetW_depSubs,
      countInnerSets_depSetW, hsubs]
    simp [count_recompute_map_observer]
  · rw [externalAction, countInnerFires_depSetW, depSetW_depSubs,
      depSetW_innerSubs, countInnerFires_depSetW, hsubs, hin]
    simp [count_recompute_map_observer]
    omega
  · rw [countComputeRuns_depSetW, hsubs]
    simp [count_recompute_map_observer]

end T3S
